import Mathlib

/-!
Shallow embedding of the task-management dashboard in `src/App.tsx`:
the `Task` data model, the React component state of `App`, the event
handlers (`addOrUpdateTask`, `deleteTask`, `editTask`, `resetForm`, the
controlled-input setters), the `groupedTasks` projection, and the
`localStorage` persistence (the `useState` initializer and the
`useEffect` mirror), together with theorems settling the specification
claims about them.
-/

namespace TaskApp

/-- The TypeScript union type `"Low" | "Medium" | "High"` of `Task.priority`. -/
inductive Priority where
  | low
  | medium
  | high
deriving DecidableEq

/-- The string value of a priority, as it appears in the TypeScript source
and in the serialized JSON. -/
def Priority.text : Priority → String
  | .low => "Low"
  | .medium => "Medium"
  | .high => "High"

/-- The `Task` interface from `App.tsx`. -/
structure Task where
  id : String
  name : String
  priority : Priority
  dueDate : String
deriving DecidableEq

/-- Model of the browser `localStorage` key-value store. -/
abbrev Storage := List (String × String)

/-- `localStorage.getItem`. -/
def Storage.getItem (st : Storage) (k : String) : Option String :=
  (st.find? (fun kv => kv.1 == k)).map (fun kv => kv.2)

/-- `localStorage.setItem`. -/
def Storage.setItem (st : Storage) (k v : String) : Storage :=
  (k, v) :: st.filter (fun kv => kv.1 != k)

/-- The React component state of `App`: the `tasks` list, the controlled
form fields `taskName`, `priority`, `dueDate`, the `editingTask`
reference, plus the `localStorage` model the component reads and writes. -/
structure AppState where
  tasks : List Task
  taskName : String
  priority : Priority
  dueDate : String
  editingTask : Option Task
  storage : Storage
deriving DecidableEq

/-- One character of `JSON.stringify` string escaping. -/
def escapeJsonChar (c : Char) : String :=
  if c = Char.ofNat 34 then "\\\""
  else if c = Char.ofNat 92 then "\\\\"
  else if c = Char.ofNat 8 then "\\b"
  else if c = Char.ofNat 12 then "\\f"
  else if c = Char.ofNat 10 then "\\n"
  else if c = Char.ofNat 13 then "\\r"
  else if c = Char.ofNat 9 then "\\t"
  else if c.toNat < 32 then
    "\\u00" ++ String.singleton (Nat.digitChar (c.toNat / 16))
      ++ String.singleton (Nat.digitChar (c.toNat % 16))
  else String.singleton c

/-- `JSON.stringify` escaping of a whole string body. -/
def escapeJson (s : String) : String :=
  String.join (s.toList.map escapeJsonChar)

/-- A JSON string literal: the escaped body between double quotes. -/
def quoteStr (s : String) : String :=
  "\x22" ++ escapeJson s ++ "\x22"

/-- `JSON.stringify` of one task record, with the field order of the object
literal built in `addOrUpdateTask`. -/
def stringifyTask (t : Task) : String :=
  "\x7b" ++ quoteStr "id" ++ ":" ++ quoteStr t.id
    ++ "," ++ quoteStr "name" ++ ":" ++ quoteStr t.name
    ++ "," ++ quoteStr "priority" ++ ":" ++ quoteStr t.priority.text
    ++ "," ++ quoteStr "dueDate" ++ ":" ++ quoteStr t.dueDate
    ++ "\x7d"

/-- `JSON.stringify(tasks)`: the serialized task array. -/
def stringifyTasks (ts : List Task) : String :=
  "[" ++ String.intercalate "," (ts.map stringifyTask) ++ "]"

/-- `resetForm` from `App.tsx`. -/
def resetForm (s : AppState) : AppState :=
  { s with taskName := "", priority := .medium, dueDate := "", editingTask := none }

/-- The `useEffect` that mirrors `tasks` to `localStorage` under the fixed
key `"tasks"` whenever the task list changes. -/
def persistTasks (s : AppState) : AppState :=
  { s with storage := s.storage.setItem "tasks" (stringifyTasks s.tasks) }

/-- `addOrUpdateTask` from `App.tsx`; `now` models the `Date.now()` reading.
The guard mirrors `if (!taskName || !dueDate) return` (a string is falsy
exactly when empty); on success the `useEffect` persistence runs after the
state update and the form reset. -/
def addOrUpdateTask (s : AppState) (now : Nat) : AppState :=
  if s.taskName = "" ∨ s.dueDate = "" then s
  else
    let newTask : Task :=
      { id := match s.editingTask with
          | some e => e.id
          | none => Nat.repr now,
        name := s.taskName,
        priority := s.priority,
        dueDate := s.dueDate }
    let tasks' := match s.editingTask with
      | some e => s.tasks.map (fun t => if t.id = e.id then newTask else t)
      | none => s.tasks ++ [newTask]
    persistTasks (resetForm { s with tasks := tasks' })

/-- `deleteTask` from `App.tsx`, followed by the `useEffect` persistence. -/
def deleteTask (s : AppState) (i : String) : AppState :=
  persistTasks { s with tasks := s.tasks.filter (fun t => t.id != i) }

/-- `editTask` from `App.tsx`. -/
def editTask (s : AppState) (t : Task) : AppState :=
  { s with editingTask := some t, taskName := t.name,
           priority := t.priority, dueDate := t.dueDate }

/-- The `onChange` handler of the task-name input. -/
def setTaskName (s : AppState) (v : String) : AppState :=
  { s with taskName := v }

/-- The `onValueChange` handler of the priority select. -/
def setPriority (s : AppState) (v : Priority) : AppState :=
  { s with priority := v }

/-- The `onChange` handler of the due-date input. -/
def setDueDate (s : AppState) (v : String) : AppState :=
  { s with dueDate := v }

/-- The accumulator object built by the `reduce` in `groupedTasks`: a
partial `Record<Task.priority, Task[]>` whose absent properties are
`none`. -/
structure Buckets where
  low : Option (List Task)
  medium : Option (List Task)
  high : Option (List Task)
deriving DecidableEq

/-- Property read `acc[p]`. -/
def Buckets.get (b : Buckets) : Priority → Option (List Task)
  | .low => b.low
  | .medium => b.medium
  | .high => b.high

/-- Property write `acc[p] = l`. -/
def Buckets.set (b : Buckets) : Priority → List Task → Buckets
  | .low, l => { b with low := some l }
  | .medium, l => { b with medium := some l }
  | .high, l => { b with high := some l }

/-- One step of the `reduce` in `groupedTasks`:
`if (!acc[task.priority]) acc[task.priority] = []; acc[task.priority].push(task)`. -/
def pushTask (acc : Buckets) (t : Task) : Buckets :=
  acc.set t.priority ((acc.get t.priority).getD [] ++ [t])

/-- `groupedTasks` from `App.tsx`: the `reduce` over the task list starting
from the empty object. -/
def groupedTasks (tasks : List Task) : Buckets :=
  tasks.foldl pushTask ⟨none, none, none⟩

/-- `priorityOrder` from `App.tsx`. -/
def priorityOrder : List Priority := [.high, .medium, .low]

/-- The rendered projection: `priorityOrder.map(...)` renders a section for
`priorityLevel` only when `groupedTasks[priorityLevel]` is truthy (absent
properties are `undefined`, hence falsy; a bucket, once present, is a
non-empty array, hence truthy). -/
def projection (tasks : List Task) : List (Priority × List Task) :=
  priorityOrder.filterMap (fun p => ((groupedTasks tasks).get p).map (fun l => (p, l)))

/-- JSON values, as returned by `JSON.parse` (numbers keep their literal
text; the application never inspects numeric values). -/
inductive Json where
  | null
  | bool (b : Bool)
  | num (lit : String)
  | str (s : String)
  | arr (elems : List Json)
  | obj (fields : List (String × Json))

/-- JSON whitespace. -/
def isJsonWs (c : Char) : Bool :=
  c = ' ' || c = Char.ofNat 10 || c = Char.ofNat 9 || c = Char.ofNat 13

/-- Drop leading JSON whitespace. -/
def skipWs : List Char → List Char
  | [] => []
  | c :: cs => if isJsonWs c then skipWs cs else c :: cs

/-- The numeric value of one hexadecimal digit. -/
def hexVal (c : Char) : Option Nat :=
  if '0' ≤ c ∧ c ≤ '9' then some (c.toNat - 48)
  else if 'a' ≤ c ∧ c ≤ 'f' then some (c.toNat - 87)
  else if 'A' ≤ c ∧ c ≤ 'F' then some (c.toNat - 55)
  else none

/-- Scan the body of a JSON string literal (opening quote already
consumed), returning the decoded string and the remaining input. -/
def scanString (fuel : Nat) (input : List Char) : Except String (String × List Char) :=
  match fuel with
  | 0 => .error "string scan out of fuel"
  | fuel + 1 =>
    match input with
    | [] => .error "unterminated string literal"
    | c :: cs =>
      if c = Char.ofNat 34 then .ok ("", cs)
      else if c = Char.ofNat 92 then
        match cs with
        | 'u' :: h1 :: h2 :: h3 :: h4 :: cs2 =>
          match hexVal h1, hexVal h2, hexVal h3, hexVal h4 with
          | some a, some b, some c2, some d =>
            (scanString fuel cs2).map
              (fun r => (String.singleton (Char.ofNat (((a * 16 + b) * 16 + c2) * 16 + d)) ++ r.1, r.2))
          | _, _, _, _ => .error "invalid unicode escape"
        | e :: cs2 =>
          let d : Option Char :=
            if e = Char.ofNat 34 then some (Char.ofNat 34)
            else if e = Char.ofNat 92 then some (Char.ofNat 92)
            else if e = '/' then some '/'
            else if e = 'b' then some (Char.ofNat 8)
            else if e = 'f' then some (Char.ofNat 12)
            else if e = 'n' then some (Char.ofNat 10)
            else if e = 'r' then some (Char.ofNat 13)
            else if e = 't' then some (Char.ofNat 9)
            else none
          match d with
          | some d => (scanString fuel cs2).map (fun r => (String.singleton d ++ r.1, r.2))
          | none => .error "invalid escape"
        | [] => .error "unterminated escape"
      else if c.toNat < 32 then .error "control character in string literal"
      else (scanString fuel cs).map (fun r => (String.singleton c ++ r.1, r.2))

/-- Decimal digit test. -/
def isDigitChar (c : Char) : Bool := '0' ≤ c && c ≤ '9'

/-- Split off the longest leading run of decimal digits. -/
def scanDigits : List Char → List Char × List Char
  | [] => ([], [])
  | c :: cs =>
    if isDigitChar c then
      let r := scanDigits cs
      (c :: r.1, r.2)
    else ([], c :: cs)

/-- Scan a JSON number literal, returning its raw text. -/
def scanNumber (input : List Char) : Except String (String × List Char) :=
  let sr : List Char × List Char :=
    match input with
    | '-' :: cs => (['-'], cs)
    | _ => ([], input)
  let ir := scanDigits sr.2
  if ir.1 = [] then .error "invalid number"
  else if ir.1.length > 1 ∧ ir.1.head? = some '0' then .error "leading zero"
  else
    let fr : Except String (List Char × List Char) :=
      match ir.2 with
      | '.' :: cs =>
        let dr := scanDigits cs
        if dr.1 = [] then .error "missing fraction digits"
        else .ok ('.' :: dr.1, dr.2)
      | _ => .ok ([], ir.2)
    match fr with
    | .error e => .error e
    | .ok fr =>
      let er : Except String (List Char × List Char) :=
        match fr.2 with
        | c :: cs =>
          if c = 'e' ∨ c = 'E' then
            let sr2 : List Char × List Char :=
              match cs with
              | c2 :: cs2 => if c2 = '+' ∨ c2 = '-' then ([c, c2], cs2) else ([c], cs)
              | [] => ([c], [])
            let dr := scanDigits sr2.2
            if dr.1 = [] then .error "missing exponent digits"
            else .ok (sr2.1 ++ dr.1, dr.2)
          else .ok ([], fr.2)
        | [] => .ok ([], [])
      match er with
      | .error e => .error e
      | .ok er => .ok ((sr.1 ++ ir.1 ++ fr.1 ++ er.1).asString, er.2)

mutual

/-- Recursive descent over one JSON value;`fuel` bounds the nesting work. -/
def parseJson (fuel : Nat) (input : List Char) : Except String (Json × List Char) :=
  match fuel with
  | 0 => .error "out of fuel"
  | fuel + 1 =>
    match skipWs input with
    | [] => .error "unexpected end of input"
    | c :: cs =>
      if c = 'n' then
        match cs with
        | 'u' :: 'l' :: 'l' :: rest => .ok (.null, rest)
        | _ => .error "invalid literal"
      else if c = 't' then
        match cs with
        | 'r' :: 'u' :: 'e' :: rest => .ok (.bool true, rest)
        | _ => .error "invalid literal"
      else if c = 'f' then
        match cs with
        | 'a' :: 'l' :: 's' :: 'e' :: rest => .ok (.bool false, rest)
        | _ => .error "invalid literal"
      else if c = Char.ofNat 34 then
        (scanString (cs.length + 1) cs).map (fun r => (.str r.1, r.2))
      else if c = '[' then
        match skipWs cs with
        | ']' :: rest => .ok (.arr [], rest)
        | rest => parseArrayLoop fuel rest []
      else if c = Char.ofNat 123 then
        match skipWs cs with
        | c2 :: rest =>
          if c2 = Char.ofNat 125 then .ok (.obj [], rest)
          else parseObjLoop fuel (c2 :: rest) []
        | [] => .error "unterminated object"
      else if c = '-' || isDigitChar c then
        (scanNumber (c :: cs)).map (fun r => (.num r.1, r.2))
      else .error "unexpected character"

/-- Elements of an array after `[`, at least one element expected. -/
def parseArrayLoop (fuel : Nat) (input : List Char) (acc : List Json) :
    Except String (Json × List Char) :=
  match fuel with
  | 0 => .error "out of fuel"
  | fuel + 1 =>
    match parseJson fuel input with
    | .error e => .error e
    | .ok (v, rest) =>
      match skipWs rest with
      | ',' :: rs => parseArrayLoop fuel rs (acc ++ [v])
      | ']' :: rs => .ok (.arr (acc ++ [v]), rs)
      | _ => .error "expected comma or closing bracket"

/-- Members of an object after `\x7b`, at least one member expected. -/
def parseObjLoop (fuel : Nat) (input : List Char) (acc : List (String × Json)) :
    Except String (Json × List Char) :=
  match fuel with
  | 0 => .error "out of fuel"
  | fuel + 1 =>
    match skipWs input with
    | c :: cs =>
      if c = Char.ofNat 34 then
        match scanString (cs.length + 1) cs with
        | .error e => .error e
        | .ok (k, rest) =>
          match skipWs rest with
          | ':' :: rs =>
            match parseJson fuel rs with
            | .error e => .error e
            | .ok (v, rest2) =>
              match skipWs rest2 with
              | ',' :: rs2 => parseObjLoop fuel rs2 (acc ++ [(k, v)])
              | c2 :: rs2 =>
                if c2 = Char.ofNat 125 then .ok (.obj (acc ++ [(k, v)]), rs2)
                else .error "expected comma or closing brace"
              | [] => .error "unterminated object"
          | _ => .error "expected colon"
      else .error "expected string key"
    | [] => .error "unterminated object"

end

/-- Model of `JSON.parse`: parses the whole input, allowing only trailing
whitespace after the value.  An `Except.error` models the thrown
`SyntaxError`. -/
def jsonParse (s : String) : Except String Json :=
  match parseJson (s.length + 1) s.toList with
  | .error e => .error e
  | .ok (v, rest) =>
    match skipWs rest with
    | [] => .ok v
    | _ => .error "unexpected trailing input"

/-- The `useState` initializer of `App`:
`savedTasks ? JSON.parse(savedTasks) : []` on `localStorage.getItem("tasks")`
(`null` and `""` are falsy).  The `JSON.parse` call is not wrapped in any
`try`/`catch`, so a parse failure propagates as `Except.error`. -/
def loadTasks (st : Storage) : Except String Json :=
  match st.getItem "tasks" with
  | none => .ok (Json.arr [])
  | some s => if s = "" then .ok (Json.arr []) else jsonParse s

/-- The user-triggered events of the component, as reachable from the UI:
form submission carries the `Date.now()` reading used for a fresh id. -/
inductive Op where
  | submit (now : Nat)
  | remove (i : String)
  | edit (t : Task)
  | cancel
  | setName (v : String)
  | setPrio (v : Priority)
  | setDue (v : String)

/-- Dispatch one event to its handler. -/
def applyOp (s : AppState) : Op → AppState
  | .submit now => addOrUpdateTask s now
  | .remove i => deleteTask s i
  | .edit t => editTask s t
  | .cancel => resetForm s
  | .setName v => setTaskName s v
  | .setPrio v => setPriority s v
  | .setDue v => setDueDate s v

/-- Run a sequence of events. -/
def runOps (s : AppState) : List Op → AppState
  | [] => s
  | op :: ops => runOps (applyOp s op) ops

/-- The monotonically-advancing time source: every `Date.now()` reading in
the event sequence is at least `c`, and readings strictly increase. -/
def Chronological : Nat → List Op → Prop
  | _, [] => True
  | c, Op.submit now :: ops => c ≤ now ∧ Chronological (now + 1) ops
  | c, _ :: ops => Chronological c ops

/-- All ids in the list were produced by the time source at instants
before `c`. -/
def IdsFrom (c : Nat) (ts : List Task) : Prop :=
  ∀ t ∈ ts, ∃ n, n < c ∧ t.id = Nat.repr n

/-- The big-endian decimal digit characters of `n`: the purely functional
content of `Nat.toDigitsCore`, used to reason about `Nat.repr`. -/
def digitsBE (n : Nat) : List Char :=
  if n < 10 then [Nat.digitChar n]
  else digitsBE (n / 10) ++ [Nat.digitChar (n % 10)]
termination_by n
decreasing_by
  exact Nat.div_lt_self (by omega) (by omega)

/-- A concrete state whose `editingTask` holds an id absent from `tasks`
(reachable by deleting the task being edited before submitting). -/
def staleEditState : AppState :=
  { tasks := [{ id := "1", name := "a", priority := .low, dueDate := "2024-01-01" }],
    taskName := "b",
    priority := .high,
    dueDate := "2024-01-02",
    editingTask := some { id := "2", name := "x", priority := .low, dueDate := "2024-01-01" },
    storage := [] }

/-- A concrete state used to instantiate universally quantified theorems. -/
def sampleState : AppState :=
  { tasks := [{ id := "3", name := "a", priority := .low, dueDate := "2024-01-01" },
              { id := "5", name := "b", priority := .high, dueDate := "2024-01-02" }],
    taskName := "c",
    priority := .medium,
    dueDate := "2024-01-03",
    editingTask := none,
    storage := [] }

/-- A concrete state with an empty task name (invalid form). -/
def invalidFormState : AppState :=
  { tasks := [{ id := "3", name := "a", priority := .low, dueDate := "2024-01-01" }],
    taskName := "",
    priority := .high,
    dueDate := "2024-01-05",
    editingTask := none,
    storage := [] }

/-- A concrete state editing the task with id `"5"`. -/
def editState : AppState :=
  { tasks := [{ id := "3", name := "a", priority := .low, dueDate := "2024-01-01" },
              { id := "5", name := "b", priority := .high, dueDate := "2024-01-02" }],
    taskName := "c",
    priority := .high,
    dueDate := "2024-01-03",
    editingTask := some { id := "5", name := "b", priority := .high, dueDate := "2024-01-02" },
    storage := [] }

/-! ## Helper lemmas -/

theorem addOrUpdateTask_invalid (s : AppState) (now : Nat)
    (hv : s.taskName = "" ∨ s.dueDate = "") :
    addOrUpdateTask s now = s := by
  rw [addOrUpdateTask, if_pos hv]

theorem addOrUpdateTask_tasks_create (s : AppState) (now : Nat)
    (hv : ¬ (s.taskName = "" ∨ s.dueDate = "")) (he : s.editingTask = none) :
    (addOrUpdateTask s now).tasks
      = s.tasks ++ [{ id := Nat.repr now, name := s.taskName,
                      priority := s.priority, dueDate := s.dueDate }] := by
  rw [addOrUpdateTask, if_neg hv]
  simp [he, persistTasks, resetForm]

theorem addOrUpdateTask_tasks_update (s : AppState) (now : Nat) (e : Task)
    (hv : ¬ (s.taskName = "" ∨ s.dueDate = "")) (he : s.editingTask = some e) :
    (addOrUpdateTask s now).tasks
      = s.tasks.map (fun t => if t.id = e.id then
          { id := e.id, name := s.taskName, priority := s.priority,
            dueDate := s.dueDate } else t) := by
  rw [addOrUpdateTask, if_neg hv]
  simp [he, persistTasks, resetForm]

theorem getItem_setItem (st : Storage) (k v : String) :
    (st.setItem k v).getItem k = some v := by
  simp [Storage.getItem, Storage.setItem, List.find?]

theorem setItem_setItem (st : Storage) (k v : String) :
    (st.setItem k v).setItem k v = st.setItem k v := by
  simp [Storage.setItem, List.filter_filter]

theorem map_keep_of_no_match (nt : Task) (i : String) :
    ∀ ts : List Task, (∀ u ∈ ts, ¬ u.id = i) →
      ts.map (fun t => if t.id = i then nt else t) = ts := by
  intro ts h
  induction ts with
  | nil => rfl
  | cons t ts ih =>
    simp only [List.map_cons]
    rw [if_neg (h t (List.mem_cons_self t ts))]
    rw [ih (fun u hu => h u (List.mem_cons_of_mem t hu))]

theorem map_update_eq_set (nt : Task) (i : String) :
    ∀ ts : List Task, (ts.map Task.id).Nodup →
      ∀ (j : Nat) (hj : j < ts.length), (ts.get ⟨j, hj⟩).id = i →
        ts.map (fun t => if t.id = i then nt else t) = ts.set j nt := by
  intro ts
  induction ts with
  | nil =>
    intro _ j hj
    exact absurd hj (by simp)
  | cons t ts ih =>
    intro hnd j hj hid
    have hhead : t.id ∉ ts.map Task.id := by
      simp only [List.map_cons, List.nodup_cons] at hnd
      exact hnd.1
    have htail : (ts.map Task.id).Nodup := by
      simp only [List.map_cons, List.nodup_cons] at hnd
      exact hnd.2
    cases j with
    | zero =>
      have ht : t.id = i := hid
      simp only [List.map_cons, List.set]
      rw [if_pos ht]
      congr 1
      apply map_keep_of_no_match
      intro u hu hui
      exact hhead (by rw [ht, ← hui]; exact List.mem_map_of_mem Task.id hu)
    | succ k =>
      have hk : k < ts.length := by simpa using hj
      have hid' : (ts.get ⟨k, hk⟩).id = i := hid
      have hmem : (ts.get ⟨k, hk⟩).id ∈ ts.map Task.id :=
        List.mem_map_of_mem Task.id (List.get_mem ts k hk)
      have hti : ¬ t.id = i := by
        intro h
        exact hhead (by rw [h, ← hid']; exact hmem)
      simp only [List.map_cons, List.set]
      rw [if_neg hti]
      congr 1
      exact ih htail k hk hid'

theorem Buckets.get_set (b : Buckets) (p q : Priority) (l : List Task) :
    (b.set q l).get p = if p = q then some l else b.get p := by
  cases p <;> cases q <;> simp [Buckets.get, Buckets.set]

theorem foldl_pushTask_get (p : Priority) :
    ∀ (ts : List Task) (acc : Buckets),
      (ts.foldl pushTask acc).get p
        = match acc.get p with
          | none =>
            if ts.filter (fun t => t.priority == p) = [] then none
            else some (ts.filter (fun t => t.priority == p))
          | some l => some (l ++ ts.filter (fun t => t.priority == p)) := by
  intro ts
  induction ts with
  | nil =>
    intro acc
    cases h : acc.get p <;> simp [h]
  | cons t ts ih =>
    intro acc
    rw [List.foldl_cons, ih (pushTask acc t)]
    by_cases hp : t.priority = p
    · cases hacc : acc.get p <;>
        simp [pushTask, Buckets.get_set, hp, hacc, List.filter_cons]
    · have hp' : ¬ (t.priority == p) = true := by simpa using hp
      cases hacc : acc.get p <;>
        simp [pushTask, Buckets.get_set, hp, hacc, List.filter_cons, hp',
          Ne.symm hp]

theorem groupedTasks_get (ts : List Task) (p : Priority) :
    (groupedTasks ts).get p
      = if ts.filter (fun t => t.priority == p) = [] then none
        else some (ts.filter (fun t => t.priority == p)) := by
  have h0 : (Buckets.mk none none none).get p = none := by
    cases p <;> rfl
  rw [groupedTasks, foldl_pushTask_get p ts ⟨none, none, none⟩, h0]

theorem digitsBE_of_lt {n : Nat} (h : n < 10) :
    digitsBE n = [Nat.digitChar n] := by
  conv_lhs => rw [digitsBE]
  rw [if_pos h]

theorem digitsBE_of_ge {n : Nat} (h : ¬ n < 10) :
    digitsBE n = digitsBE (n / 10) ++ [Nat.digitChar (n % 10)] := by
  conv_lhs => rw [digitsBE]
  rw [if_neg h]

theorem digitsBE_ne_nil (n : Nat) : digitsBE n ≠ [] := by
  by_cases h : n < 10
  · rw [digitsBE_of_lt h]
    simp
  · rw [digitsBE_of_ge h]
    simp

theorem toDigitsCore_eq_digitsBE :
    ∀ (fuel n : Nat) (ds : List Char), n < fuel →
      Nat.toDigitsCore 10 fuel n ds = digitsBE n ++ ds := by
  intro fuel
  induction fuel with
  | zero => intro n ds h; omega
  | succ f ih =>
    intro n ds h
    simp only [Nat.toDigitsCore]
    by_cases h0 : n / 10 = 0
    · have hn : n < 10 := by omega
      have hmod : n % 10 = n := by omega
      rw [if_pos h0, digitsBE_of_lt hn, hmod]
      rfl
    · have hn : ¬ n < 10 := by omega
      have hlt : n / 10 < f := by omega
      rw [if_neg h0, ih (n / 10) _ hlt, digitsBE_of_ge hn,
        List.append_assoc]
      rfl

theorem toDigits_eq_digitsBE (n : Nat) : Nat.toDigits 10 n = digitsBE n := by
  rw [Nat.toDigits, toDigitsCore_eq_digitsBE (n + 1) n [] (Nat.lt_succ_self n),
    List.append_nil]

theorem digitChar_inj_lt :
    ∀ a, a < 10 → ∀ b, b < 10 → Nat.digitChar a = Nat.digitChar b → a = b := by
  decide

theorem digitsBE_inj : ∀ m n : Nat, digitsBE m = digitsBE n → m = n := by
  intro m
  induction m using Nat.strong_induction_on with
  | _ m ih =>
    intro n h
    by_cases hm : m < 10 <;> by_cases hn : n < 10
    · rw [digitsBE_of_lt hm, digitsBE_of_lt hn] at h
      exact digitChar_inj_lt m hm n hn (by simpa using h)
    · rw [digitsBE_of_lt hm, digitsBE_of_ge hn] at h
      have hl := congrArg List.length h
      simp only [List.length_append, List.length_singleton] at hl
      have hpos : 0 < (digitsBE (n / 10)).length :=
        List.length_pos.mpr (digitsBE_ne_nil _)
      omega
    · rw [digitsBE_of_ge hm, digitsBE_of_lt hn] at h
      have hl := congrArg List.length h
      simp only [List.length_append, List.length_singleton] at hl
      have hpos : 0 < (digitsBE (m / 10)).length :=
        List.length_pos.mpr (digitsBE_ne_nil _)
      omega
    · rw [digitsBE_of_ge hm, digitsBE_of_ge hn] at h
      have h' := congrArg List.reverse h
      simp only [List.reverse_append, List.reverse_cons, List.reverse_nil,
        List.nil_append, List.singleton_append, List.cons.injEq] at h'
      have hmod : m % 10 = n % 10 :=
        digitChar_inj_lt (m % 10) (by omega) (n % 10) (by omega) h'.1
      have hdiv : m / 10 = n / 10 :=
        ih (m / 10) (Nat.div_lt_self (by omega) (by omega))
          (n / 10) (List.reverse_injective h'.2)
      omega

theorem nat_repr_inj {m n : Nat} (h : Nat.repr m = Nat.repr n) : m = n := by
  apply digitsBE_inj
  rw [← toDigits_eq_digitsBE, ← toDigits_eq_digitsBE]
  exact congrArg String.data h

theorem IdsFrom.mono {c c' : Nat} (h : c ≤ c') {ts : List Task}
    (hb : IdsFrom c ts) : IdsFrom c' ts := by
  intro t ht
  obtain ⟨n, hn, hid⟩ := hb t ht
  exact ⟨n, by omega, hid⟩

theorem IdsFrom.of_map_id_eq {c : Nat} {ts ts' : List Task}
    (h : ts'.map Task.id = ts.map Task.id) (hb : IdsFrom c ts) : IdsFrom c ts' := by
  intro t ht
  have hmem : t.id ∈ ts.map Task.id := by
    rw [← h]
    exact List.mem_map_of_mem Task.id ht
  obtain ⟨u, hu, he⟩ := List.mem_map.mp hmem
  obtain ⟨n, hn, hid⟩ := hb u hu
  exact ⟨n, hn, by rw [← he, hid]⟩

theorem map_update_ids (ts : List Task) (e nt : Task) (hid : nt.id = e.id) :
    (ts.map (fun t => if t.id = e.id then nt else t)).map Task.id
      = ts.map Task.id := by
  rw [List.map_map]
  apply List.map_congr_left
  intro t ht
  by_cases h : t.id = e.id
  · simp [h, hid]
  · simp [h]

theorem submit_step (s : AppState) (now c : Nat)
    (hnd : (s.tasks.map Task.id).Nodup) (hb : IdsFrom c s.tasks) (hc : c ≤ now) :
    ((addOrUpdateTask s now).tasks.map Task.id).Nodup
    ∧ IdsFrom (now + 1) (addOrUpdateTask s now).tasks := by
  by_cases hv : s.taskName = "" ∨ s.dueDate = ""
  · rw [addOrUpdateTask_invalid s now hv]
    exact ⟨hnd, hb.mono (by omega)⟩
  · cases he : s.editingTask with
    | none =>
      rw [addOrUpdateTask_tasks_create s now hv he]
      constructor
      · rw [List.map_append]
        apply List.Nodup.append hnd (by simp)
        intro a ha hmem
        simp at hmem
        obtain ⟨u, hu, hue⟩ := List.mem_map.mp ha
        obtain ⟨n, hn, hid⟩ := hb u hu
        have : n = now := nat_repr_inj (by rw [← hid, hue, hmem])
        omega
      · intro t ht
        rcases List.mem_append.mp ht with h | h
        · obtain ⟨n, hn, hid⟩ := hb t h
          exact ⟨n, by omega, hid⟩
        · simp at h
          subst h
          exact ⟨now, by omega, rfl⟩
    | some e =>
      rw [addOrUpdateTask_tasks_update s now e hv he]
      have hids := map_update_ids s.tasks e
        { id := e.id, name := s.taskName, priority := s.priority,
          dueDate := s.dueDate } rfl
      constructor
      · rw [hids]
        exact hnd
      · exact IdsFrom.of_map_id_eq hids (hb.mono (by omega))

theorem delete_nodup (s : AppState) (i : String)
    (hnd : (s.tasks.map Task.id).Nodup) :
    ((deleteTask s i).tasks.map Task.id).Nodup := by
  have ht : (deleteTask s i).tasks = s.tasks.filter (fun t => t.id != i) := rfl
  rw [ht]
  exact List.Nodup.sublist (List.Sublist.map Task.id (List.filter_sublist _)) hnd

theorem delete_idsFrom (s : AppState) (i : String) (c : Nat)
    (hb : IdsFrom c s.tasks) : IdsFrom c (deleteTask s i).tasks := by
  intro t ht
  exact hb t (List.mem_of_mem_filter ht)

theorem persist_getItem (s : AppState) :
    (persistTasks s).storage.getItem "tasks"
      = some (stringifyTasks (persistTasks s).tasks) :=
  getItem_setItem s.storage "tasks" (stringifyTasks s.tasks)

theorem filter_idem (l : List Task) (p : Task → Bool) :
    (l.filter p).filter p = l.filter p := by
  rw [List.filter_filter]
  simp

theorem projection_bind (ts : List Task) :
    (projection ts).flatMap (fun b => b.2)
      = ts.filter (fun t => t.priority == Priority.high)
        ++ ts.filter (fun t => t.priority == Priority.medium)
        ++ ts.filter (fun t => t.priority == Priority.low) := by
  simp only [projection, priorityOrder, List.filterMap_cons, List.filterMap_nil,
    groupedTasks_get]
  by_cases h1 : ts.filter (fun t => t.priority == Priority.high) = [] <;>
    by_cases h2 : ts.filter (fun t => t.priority == Priority.medium) = [] <;>
      by_cases h3 : ts.filter (fun t => t.priority == Priority.low) = [] <;>
        simp [h1, h2, h3]

theorem filter_priority_perm (ts : List Task) :
    (ts.filter (fun t => t.priority == Priority.high)
      ++ ts.filter (fun t => t.priority == Priority.medium)
      ++ ts.filter (fun t => t.priority == Priority.low)).Perm ts := by
  induction ts with
  | nil => simp
  | cons t ts ih =>
    have ih' : (ts.filter (fun t => t.priority == Priority.high)
        ++ (ts.filter (fun t => t.priority == Priority.medium)
          ++ ts.filter (fun t => t.priority == Priority.low))).Perm ts := by
      rw [← List.append_assoc]
      exact ih
    cases hp : t.priority
    · simp [List.filter_cons, hp]
      refine (List.Perm.append_left _ List.perm_middle).trans ?_
      exact List.perm_middle.trans (ih'.cons t)
    · simp [List.filter_cons, hp]
      exact List.perm_middle.trans (ih'.cons t)
    · simp [List.filter_cons, hp]
      exact ih'

/-! ## Claim theorems -/

/-- C1: for every valid input (non-empty `taskName`, non-empty `dueDate`)
with no task being edited, `addOrUpdateTask` appends exactly one new task
at the end of the list, whose `name`, `priority` and `dueDate` equal the
submitted form fields, and the task count grows by exactly one. -/
theorem claim_C1_create_appends (s : AppState) (now : Nat)
    (hEdit : s.editingTask = none)
    (hName : s.taskName ≠ "") (hDue : s.dueDate ≠ "") :
    (addOrUpdateTask s now).tasks
      = s.tasks ++ [{ id := Nat.repr now, name := s.taskName,
                      priority := s.priority, dueDate := s.dueDate }]
    ∧ (addOrUpdateTask s now).tasks.length = s.tasks.length + 1 := by
  have hv : ¬ (s.taskName = "" ∨ s.dueDate = "") := by
    intro h
    rcases h with h | h
    · exact hName h
    · exact hDue h
  have h := addOrUpdateTask_tasks_create s now hv hEdit
  refine ⟨h, ?_⟩
  rw [h]
  simp

theorem claim_C1_witness :
    sampleState.editingTask = none ∧ sampleState.taskName ≠ "" ∧ sampleState.dueDate ≠ ""
    ∧ ((addOrUpdateTask sampleState 7).tasks
        = sampleState.tasks
            ++ [{ id := Nat.repr 7, name := sampleState.taskName,
                  priority := sampleState.priority, dueDate := sampleState.dueDate }]
      ∧ (addOrUpdateTask sampleState 7).tasks.length = sampleState.tasks.length + 1) :=
  ⟨rfl, by decide, by decide,
    claim_C1_create_appends sampleState 7 rfl (by decide) (by decide)⟩

/-- C2: for every valid input, when the task being edited has the id of the
task at position `j` of the list and ids are unique, `addOrUpdateTask`
replaces exactly that position (`List.set`) with a task carrying the
submitted fields and the preserved id, leaving length and every other
position unchanged. -/
theorem claim_C2_update_in_place (s : AppState) (now : Nat) (e : Task)
    (hEdit : s.editingTask = some e)
    (hNodup : (s.tasks.map Task.id).Nodup)
    (hName : s.taskName ≠ "") (hDue : s.dueDate ≠ "")
    (j : Nat) (hj : j < s.tasks.length) (hid : (s.tasks.get ⟨j, hj⟩).id = e.id) :
    (addOrUpdateTask s now).tasks
      = s.tasks.set j { id := e.id, name := s.taskName,
                        priority := s.priority, dueDate := s.dueDate }
    ∧ (addOrUpdateTask s now).tasks.length = s.tasks.length := by
  have hv : ¬ (s.taskName = "" ∨ s.dueDate = "") := by
    intro h
    rcases h with h | h
    · exact hName h
    · exact hDue h
  have h := addOrUpdateTask_tasks_update s now e hv hEdit
  rw [h, map_update_eq_set _ e.id s.tasks hNodup j hj hid]
  exact ⟨rfl, by simp⟩

theorem claim_C2_witness :
    (addOrUpdateTask editState 9).tasks
      = editState.tasks.set 1
          { id := "5", name := editState.taskName,
            priority := editState.priority, dueDate := editState.dueDate }
    ∧ (addOrUpdateTask editState 9).tasks.length = editState.tasks.length :=
  claim_C2_update_in_place editState 9
    { id := "5", name := "b", priority := .high, dueDate := "2024-01-02" }
    rfl (by decide) (by decide) (by decide) 1 (by decide) (by decide)

/-- C3: a submission with empty `taskName` or empty `dueDate` leaves the
task list unchanged, whatever the editing context. -/
theorem claim_C3_invalid_rejected (s : AppState) (now : Nat)
    (h : s.taskName = "" ∨ s.dueDate = "") :
    (addOrUpdateTask s now).tasks = s.tasks := by
  rw [addOrUpdateTask_invalid s now h]

theorem claim_C3_witness :
    (addOrUpdateTask invalidFormState 4).tasks = invalidFormState.tasks :=
  claim_C3_invalid_rejected invalidFormState 4 (Or.inl rfl)

/-- C4: after `deleteTask s i` no remaining task has id `i`; deleting an
absent id leaves the task list unchanged; and `deleteTask` is idempotent
on the whole state. -/
theorem claim_C4_delete (s : AppState) (i : String) :
    (∀ t ∈ (deleteTask s i).tasks, t.id ≠ i)
    ∧ ((∀ t ∈ s.tasks, t.id ≠ i) → (deleteTask s i).tasks = s.tasks)
    ∧ deleteTask (deleteTask s i) i = deleteTask s i := by
  have htasks : (deleteTask s i).tasks = s.tasks.filter (fun t => t.id != i) := rfl
  refine ⟨?_, ?_, ?_⟩
  · intro t ht
    rw [htasks] at ht
    have := List.of_mem_filter ht
    simpa using this
  · intro h
    rw [htasks]
    apply List.filter_eq_self.mpr
    intro t ht
    simpa using h t ht
  · have hidem : (s.tasks.filter (fun t => t.id != i)).filter (fun t => t.id != i)
        = s.tasks.filter (fun t => t.id != i) :=
      filter_idem s.tasks (fun t => t.id != i)
    show ({ s with
        tasks := (s.tasks.filter (fun t => t.id != i)).filter (fun t => t.id != i),
        storage := (s.storage.setItem "tasks"
            (stringifyTasks (s.tasks.filter (fun t => t.id != i)))).setItem "tasks"
            (stringifyTasks ((s.tasks.filter (fun t => t.id != i)).filter
              (fun t => t.id != i))) } : AppState)
      = { s with
          tasks := s.tasks.filter (fun t => t.id != i),
          storage := s.storage.setItem "tasks"
            (stringifyTasks (s.tasks.filter (fun t => t.id != i))) }
    rw [hidem, setItem_setItem]

theorem claim_C4_witness :
    (∀ t ∈ (deleteTask sampleState "3").tasks, t.id ≠ "3")
    ∧ (deleteTask sampleState "9").tasks = sampleState.tasks
    ∧ deleteTask (deleteTask sampleState "3") "3" = deleteTask sampleState "3" :=
  ⟨(claim_C4_delete sampleState "3").1,
   (claim_C4_delete sampleState "9").2.1 (by decide),
   (claim_C4_delete sampleState "3").2.2⟩

/-- C5: the rendered grouping is a partition of the task list: the buckets
concatenated contain every task exactly once (a permutation of the list);
each rendered bucket is exactly the in-order sublist of tasks of its
priority; and the buckets appear in the fixed order High, Medium, Low with
empty buckets omitted. -/
theorem claim_C5_grouping (ts : List Task) :
    ((projection ts).flatMap (fun b => b.2)).Perm ts
    ∧ (∀ p l, (p, l) ∈ projection ts → l = ts.filter (fun t => t.priority == p))
    ∧ (projection ts).map Prod.fst
        = priorityOrder.filter (fun p => !(ts.filter (fun t => t.priority == p)).isEmpty) := by
  refine ⟨?_, ?_, ?_⟩
  · rw [projection_bind]
    exact filter_priority_perm ts
  · intro p l hm
    simp only [projection, List.mem_filterMap, groupedTasks_get] at hm
    obtain ⟨q, hq, he⟩ := hm
    by_cases hf : ts.filter (fun t => t.priority == q) = []
    · rw [if_pos hf] at he
      exact absurd he (by simp)
    · rw [if_neg hf] at he
      simp only [Option.map_some', Option.some.injEq, Prod.mk.injEq] at he
      obtain ⟨hqp, hl⟩ := he
      rw [← hl, ← hqp]
  · simp only [projection, priorityOrder, List.filterMap_cons, List.filterMap_nil,
      groupedTasks_get]
    by_cases h1 : ts.filter (fun t => t.priority == Priority.high) = [] <;>
      by_cases h2 : ts.filter (fun t => t.priority == Priority.medium) = [] <;>
        by_cases h3 : ts.filter (fun t => t.priority == Priority.low) = [] <;>
          simp [h1, h2, h3, List.filter_cons, List.isEmpty_iff]

theorem claim_C5_witness :
    ((projection sampleState.tasks).flatMap (fun b => b.2)).Perm sampleState.tasks
    ∧ [{ id := "5", name := "b", priority := Priority.high, dueDate := "2024-01-02" }]
        = sampleState.tasks.filter (fun t => t.priority == Priority.high) :=
  ⟨(claim_C5_grouping sampleState.tasks).1,
   (claim_C5_grouping sampleState.tasks).2.1 Priority.high
     [{ id := "5", name := "b", priority := Priority.high, dueDate := "2024-01-02" }]
     (by decide)⟩

/-- C6 (counterexample): with an unparsable persisted value, the `useState`
initializer does not produce the empty collection (the uncaught
`JSON.parse` exception propagates instead). -/
theorem claim_C6_counterexample :
    loadTasks [("tasks", "garbage")] ≠ Except.ok (Json.arr []) := by
  intro h
  have heval : loadTasks [("tasks", "garbage")]
      = Except.error "unexpected character" := rfl
  rw [heval] at h
  exact Except.noConfusion h

/-- C6 (amended): the initializer yields the empty collection when the
persisted value is absent or the empty string; for any other persisted
value it returns the outcome of `JSON.parse`, including a parse error,
which is not caught. -/
theorem claim_C6_load_semantics (st : Storage) :
    (st.getItem "tasks" = none → loadTasks st = Except.ok (Json.arr []))
    ∧ (st.getItem "tasks" = some "" → loadTasks st = Except.ok (Json.arr []))
    ∧ (∀ s, st.getItem "tasks" = some s → s ≠ "" → loadTasks st = jsonParse s) := by
  refine ⟨?_, ?_, ?_⟩
  · intro h
    rw [loadTasks, h]
  · intro h
    rw [loadTasks, h]
    simp
  · intro s h hs
    rw [loadTasks, h]
    exact if_neg hs

theorem claim_C6_witness :
    loadTasks [] = Except.ok (Json.arr [])
    ∧ loadTasks [("tasks", "garbage")] = jsonParse "garbage" :=
  ⟨(claim_C6_load_semantics []).1 rfl,
   (claim_C6_load_semantics [("tasks", "garbage")]).2.2 "garbage" rfl (by decide)⟩

/-- C7 (counterexample): with a valid input and an `editingTask` whose id
is not in the list, `addOrUpdateTask` does not increase the task count:
no task is appended. -/
theorem claim_C7_counterexample :
    ¬ ((addOrUpdateTask staleEditState 5).tasks.length
        = staleEditState.tasks.length + 1) := by
  decide

/-- C7 (amended): with a valid input, when `editingTask` is set but its id
matches no task in the store, `addOrUpdateTask` leaves the task list
unchanged — the map finds no match and nothing is appended. -/
theorem claim_C7_unmatched_edit (s : AppState) (now : Nat) (e : Task)
    (hEdit : s.editingTask = some e)
    (hAbsent : ∀ t ∈ s.tasks, ¬ t.id = e.id)
    (hName : s.taskName ≠ "") (hDue : s.dueDate ≠ "") :
    (addOrUpdateTask s now).tasks = s.tasks := by
  have hv : ¬ (s.taskName = "" ∨ s.dueDate = "") := by
    intro h
    rcases h with h | h
    · exact hName h
    · exact hDue h
  rw [addOrUpdateTask_tasks_update s now e hv hEdit]
  exact map_keep_of_no_match _ e.id s.tasks hAbsent

theorem claim_C7_witness :
    (addOrUpdateTask staleEditState 5).tasks = staleEditState.tasks :=
  claim_C7_unmatched_edit staleEditState 5
    { id := "2", name := "x", priority := .low, dueDate := "2024-01-01" }
    rfl (by decide) (by decide) (by decide)

/-- C8: starting from a state whose task ids are pairwise distinct and all
generated by the time source before `c`, any sequence of user events whose
`Date.now()` readings respect the monotonically-advancing clock keeps the
task ids pairwise distinct — the store always holds exactly one task per
id. -/
theorem claim_C8_id_uniqueness :
    ∀ (ops : List Op) (s : AppState) (c : Nat),
      (s.tasks.map Task.id).Nodup → IdsFrom c s.tasks → Chronological c ops →
      ((runOps s ops).tasks.map Task.id).Nodup := by
  intro ops
  induction ops with
  | nil =>
    intro s c hnd _ _
    exact hnd
  | cons op ops ih =>
    intro s c hnd hb hc
    cases op with
    | submit now =>
      have hc' : c ≤ now ∧ Chronological (now + 1) ops := hc
      obtain ⟨hnd', hb'⟩ := submit_step s now c hnd hb hc'.1
      exact ih _ (now + 1) hnd' hb' hc'.2
    | remove i => exact ih _ c (delete_nodup s i hnd) (delete_idsFrom s i c hb) hc
    | edit t => exact ih _ c hnd hb hc
    | cancel => exact ih _ c hnd hb hc
    | setName v => exact ih _ c hnd hb hc
    | setPrio v => exact ih _ c hnd hb hc
    | setDue v => exact ih _ c hnd hb hc

theorem claim_C8_witness :
    ((runOps sampleState
        [Op.setName "a", Op.setDue "2024-02-02", Op.submit 6,
         Op.setName "b", Op.setDue "2024-02-03", Op.submit 9,
         Op.remove "3"]).tasks.map Task.id).Nodup := by
  apply claim_C8_id_uniqueness _ sampleState 6
  · decide
  · intro t ht
    simp [sampleState] at ht
    rcases ht with rfl | rfl
    · exact ⟨3, by omega, by decide⟩
    · exact ⟨5, by omega, by decide⟩
  · simp [Chronological]

/-- C9: every mutating handler ends with the `useEffect` rewriting the
whole serialized task list to the fixed `localStorage` key `"tasks"`:
after a valid submission and after any delete, the persisted value equals
the full serialization of the in-memory list. -/
theorem claim_C9_persist_mirror (s : AppState) (now : Nat) (i : String) :
    (¬ (s.taskName = "" ∨ s.dueDate = "") →
      (addOrUpdateTask s now).storage.getItem "tasks"
        = some (stringifyTasks (addOrUpdateTask s now).tasks))
    ∧ (deleteTask s i).storage.getItem "tasks"
        = some (stringifyTasks (deleteTask s i).tasks) := by
  constructor
  · intro hv
    rw [addOrUpdateTask, if_neg hv]
    exact persist_getItem _
  · exact persist_getItem { s with tasks := s.tasks.filter (fun t => t.id != i) }

theorem claim_C9_witness :
    (addOrUpdateTask sampleState 7).storage.getItem "tasks"
      = some (stringifyTasks (addOrUpdateTask sampleState 7).tasks)
    ∧ (deleteTask sampleState "3").storage.getItem "tasks"
      = some (stringifyTasks (deleteTask sampleState "3").tasks) :=
  ⟨(claim_C9_persist_mirror sampleState 7 "3").1 (by decide),
   (claim_C9_persist_mirror sampleState 7 "3").2⟩

/-- C10: an invalid submission leaves the whole component state unchanged,
including the pending form fields and the editing reference; a valid
submission resets the form to the idle defaults (empty name, Medium
priority, empty due date, no task being edited). -/
theorem claim_C10_form_state (s : AppState) (now : Nat) :
    ((s.taskName = "" ∨ s.dueDate = "") → addOrUpdateTask s now = s)
    ∧ (¬ (s.taskName = "" ∨ s.dueDate = "") →
        (addOrUpdateTask s now).taskName = ""
        ∧ (addOrUpdateTask s now).priority = Priority.medium
        ∧ (addOrUpdateTask s now).dueDate = ""
        ∧ (addOrUpdateTask s now).editingTask = none) := by
  constructor
  · exact addOrUpdateTask_invalid s now
  · intro hv
    rw [addOrUpdateTask, if_neg hv]
    exact ⟨rfl, rfl, rfl, rfl⟩

theorem claim_C10_witness :
    addOrUpdateTask invalidFormState 4 = invalidFormState
    ∧ ((addOrUpdateTask sampleState 7).taskName = ""
       ∧ (addOrUpdateTask sampleState 7).priority = Priority.medium
       ∧ (addOrUpdateTask sampleState 7).dueDate = ""
       ∧ (addOrUpdateTask sampleState 7).editingTask = none) :=
  ⟨(claim_C10_form_state invalidFormState 4).1 (Or.inl rfl),
   (claim_C10_form_state sampleState 7).2 (by decide)⟩

end TaskApp
